import Mathlib

/-!
Shallow embedding of the gsheet_api repository (src/api/todos.js and the
express variant src/unnamed/part_001; both share the same fetch/parse core).

JavaScript strings are modelled as `List Char`, JS numbers reaching this
code as exact integers (`Int`), NaN as `Option.none`, and fallible or
absent JS values as `Option`.  The two outbound `fetch` calls are the only
effects; they are modelled by an explicit environment (`FetchOutcome`,
`Env.appendOk`) threaded through the functions, so every definition is a
total computable function of the code's inputs plus that environment.
-/

namespace GSheet

/-- A JavaScript string, modelled as its list of characters. -/
abbrev Str := List Char

/-- The character set removed by JavaScript `String.prototype.trim`
(WhiteSpace and LineTerminator code points). -/
def jsIsWhitespace (c : Char) : Bool :=
  c = ' ' || c = '\t' || c = '\n' || c = '\r' || c = '\x0b' || c = '\x0c' ||
  c = '\u00A0' || c = '\uFEFF' || c = '\u2028' || c = '\u2029'

/-- Model of JS `s.trim()`. -/
def jsTrim (s : Str) : Str :=
  ((s.dropWhile jsIsWhitespace).reverse.dropWhile jsIsWhitespace).reverse

/-- Model of JS `s.toLowerCase()` (the cells reaching it are ASCII). -/
def jsToLower (s : Str) : Str :=
  s.map Char.toLower

/-- Model of JS `s.split(sep)` for a one-character separator:
`"".split(c) = [""]`, separators at the ends produce empty fragments. -/
def splitCh (c : Char) : Str → List Str
  | [] => [[]]
  | x :: xs =>
    if x = c then [] :: splitCh c xs
    else
      match splitCh c xs with
      | [] => [[x]]
      | y :: ys => (x :: y) :: ys

/-- Model of JS `array.join(c)` for a one-character separator. -/
def joinWith (c : Char) : List Str → Str
  | [] => []
  | [s] => s
  | s :: t :: rest => s ++ c :: joinWith c (t :: rest)

/-- Model of `cell.replace(/"/g, '')`: drop every double-quote character. -/
def stripQuotes (s : Str) : Str :=
  s.filter (fun c => c != '"')

/-- Line 24 of todos.js (= line 41 of the express variant):
`csvText.split('\n').map(row => row.split(',').map(cell => cell.replace(/"/g, '')))`. -/
def tokenize (text : Str) : List (List Str) :=
  (splitCh '\n' text).map (fun row => (splitCh ',' row).map stripQuotes)

/-- The row-sanitizer predicate `row.some(cell => cell.trim() !== '')`. -/
def rowNonBlank (row : List Str) : Bool :=
  row.any (fun cell => !(jsTrim cell).isEmpty)

/-- Line 27 of todos.js: `rows.filter(row => row.some(cell => cell.trim() !== ''))`. -/
def sanitize (rows : List (List Str)) : List (List Str) :=
  rows.filter rowNonBlank

/-- The success path of `fetchSheetData`: tokenize the body, drop blank rows. -/
def fetchRows (text : Str) : List (List Str) :=
  sanitize (tokenize text)

/-- Outcome of the outbound CSV fetch, as seen by `fetchSheetData`'s
try-block: either a network-level failure (the `fetch`/`text()` promise
rejected) or a settled HTTP response with a status and a body. -/
inductive FetchOutcome
  | netError
  | response (status : Nat) (body : Str)
deriving DecidableEq

/-- node-fetch `response.ok`: status in the range 200..299. -/
def responseOk (status : Nat) : Bool :=
  200 ≤ status && status < 300

/-- The hard-coded fallback matrix returned by `fetchSheetData`'s catch block. -/
def fallbackMatrix : List (List Str) :=
  [ ["id".toList, "task".toList, "completed".toList, "created_date".toList],
    ["1".toList, "Learn APIs from Google Sheets".toList, "false".toList, "2024-07-13".toList],
    ["2".toList, "Build real-time integration".toList, "false".toList, "2024-07-13".toList],
    ["3".toList, "Deploy to production".toList, "false".toList, "2024-07-13".toList] ]

/-- `fetchSheetData` (todos.js lines 8-42).  A non-ok status throws inside
the try-block; every throw is caught and replaced by the fallback matrix,
so the function is total and never propagates an error. -/
def fetchSheetData (outcome : FetchOutcome) : List (List Str) :=
  match outcome with
  | .netError => fallbackMatrix
  | .response status body =>
    if responseOk status then fetchRows body else fallbackMatrix

/-- A fetch "fails" when the network call rejects or the status is non-2xx. -/
def fetchFails (outcome : FetchOutcome) : Bool :=
  match outcome with
  | .netError => true
  | .response status _ => !responseOk status

/-- A JavaScript value stored in a record field: the code only ever stores
strings (from cells), integers (coerced ids) and booleans (coerced flags). -/
inductive Value
  | vStr (s : Str)
  | vInt (n : Int)
  | vBool (b : Bool)
deriving DecidableEq

/-- A JS object literal, as an insertion-ordered association list. -/
abbrev Record := List (Str × Value)

/-- JS property read `obj[k]`; `none` models `undefined`. -/
def getField : Record → Str → Option Value
  | [], _ => none
  | (k1, v1) :: rest, k => if k1 = k then some v1 else getField rest k

/-- JS property write `obj[k] = v`: overwrite in place, else append. -/
def setField : Record → Str → Value → Record
  | [], k, v => [(k, v)]
  | (k1, v1) :: rest, k, v =>
    if k1 = k then (k1, v) :: rest else (k1, v1) :: setField rest k v

/-- JS truthiness of a possibly-undefined value. -/
def truthyV : Option Value → Bool
  | none => false
  | some (.vStr s) => !s.isEmpty
  | some (.vInt n) => n != 0
  | some (.vBool b) => b

/-- JS ToString on the values this program stores. -/
def valueToString : Value → Str
  | .vStr s => s
  | .vInt n => (toString n).toList
  | .vBool b => if b then "true".toList else "false".toList

def isDecDigit (c : Char) : Bool := '0' ≤ c && c ≤ '9'

def decVal (c : Char) : Nat := c.toNat - '0'.toNat

def isHexDigit (c : Char) : Bool :=
  isDecDigit c || ('a' ≤ c && c ≤ 'f') || ('A' ≤ c && c ≤ 'F')

def hexVal (c : Char) : Nat :=
  if isDecDigit c then decVal c
  else if 'a' ≤ c && c ≤ 'f' then c.toNat - 'a'.toNat + 10
  else c.toNat - 'A'.toNat + 10

def natOfDigits (base : Nat) (val : Char → Nat) (ds : Str) : Nat :=
  ds.foldl (fun acc c => acc * base + val c) 0

/-- The digit-scanning core of JS `parseInt` after sign handling: a `0x`/`0X`
prefix switches to hexadecimal, otherwise the longest decimal-digit prefix is
taken; no digits at all yields NaN (`none`). -/
def parseIntBody (s : Str) : Option Nat :=
  match s with
  | '0' :: c :: rest =>
    if c = 'x' ∨ c = 'X' then
      let ds := rest.takeWhile isHexDigit
      if ds.isEmpty then none else some (natOfDigits 16 hexVal ds)
    else
      some (natOfDigits 10 decVal (s.takeWhile isDecDigit))
  | _ =>
    let ds := s.takeWhile isDecDigit
    if ds.isEmpty then none else some (natOfDigits 10 decVal ds)

/-- JS `parseInt(s)` (radix unspecified): skip leading whitespace, optional
sign, then `parseIntBody`; `none` models NaN.  JS would lose precision on
astronomically long digit strings; the model keeps the exact integer. -/
def jsParseInt (s : Str) : Option Int :=
  let s1 := s.dropWhile jsIsWhitespace
  match s1 with
  | '-' :: rest => (parseIntBody rest).map (fun n => -(n : Int))
  | '+' :: rest => (parseIntBody rest).map (fun n => (n : Int))
  | _ => (parseIntBody s1).map (fun n => (n : Int))

/-- `parseInt(s) || dflt`: NaN and 0 are falsy, so both fall to the default. -/
def jsParseIntOr (s : Str) (dflt : Int) : Int :=
  match jsParseInt s with
  | none => dflt
  | some n => if n = 0 then dflt else n

/-- The field-name keys used by the coercion step (already lower-case). -/
def idK : Str := ['i', 'd']

def taskK : Str := ['t', 'a', 's', 'k']

def completedK : Str := ['c', 'o', 'm', 'p', 'l', 'e', 't', 'e', 'd']

def createdK : Str := ['c', 'r', 'e', 'a', 't', 'e', 'd', '_', 'd', 'a', 't', 'e']

def trueL : Str := ['t', 'r', 'u', 'e']

/-- Line 58: `if (obj.id) obj.id = parseInt(obj.id) || index + 1;`.
The guard is JS truthiness, so an empty-string id is left untouched. -/
def coerceId (obj : Record) (index : Nat) : Record :=
  match getField obj idK with
  | some v =>
    if truthyV (some v) then
      setField obj idK (.vInt (jsParseIntOr (valueToString v) ((index : Int) + 1)))
    else obj
  | none => obj

/-- Line 59: `if (obj.completed) obj.completed = obj.completed.toLowerCase() === 'true';`.
Again guarded by truthiness, so an empty-string flag is left untouched. -/
def coerceCompleted (obj : Record) : Record :=
  match getField obj completedK with
  | some v =>
    if truthyV (some v) then
      setField obj completedK (.vBool (jsToLower (valueToString v) == trueL))
    else obj
  | none => obj

def coerceValues (obj : Record) (index : Nat) : Record :=
  coerceCompleted (coerceId obj index)

/-- The `headers.forEach((header, i) => { obj[header] = row[i] || ''; })`
loop: `row[i]` is `undefined` past the end of the row, and `x || ''` turns
both `undefined` and `''` into `''`, i.e. `row.getD i []`. -/
def buildAux (row : List Str) : Nat → List Str → Record → Record
  | _, [], obj => obj
  | i, h :: hs, obj => buildAux row (i + 1) hs (setField obj h (.vStr (row.getD i [])))

def buildObj (headers row : List Str) : Record :=
  buildAux row 0 headers []

/-- Line 48: `rows[0].map(h => h.toLowerCase().trim())`. -/
def headersOf (rows : List (List Str)) : List Str :=
  (rows.headD []).map (fun h => jsTrim (jsToLower h))

/-- The i-th data row (`rows.slice(1)[i]`, `[]` past the end). -/
def dataRowAt (rows : List (List Str)) (i : Nat) : List Str :=
  (rows.drop 1).getD i []

/-- `dataRows.map((row, index) => ...)` with its running index made explicit. -/
def mapIdx (f : Nat → List Str → Record) : Nat → List (List Str) → List Record
  | _, [] => []
  | i, r :: rs => f i r :: mapIdx f (i + 1) rs

/-- `rowsToJSON` (todos.js lines 45-63).  `none` models a null/undefined
argument (`!rows`). -/
def rowsToJSON : Option (List (List Str)) → List Record
  | none => []
  | some rows =>
    if rows.length < 2 then []
    else mapIdx (fun i row => coerceValues (buildObj (headersOf rows) row) i) 0 (rows.drop 1)

/-- A JS number that may be NaN (`none`). -/
abbrev JsNum := Option Int

/-- JS `Number()` coercion of a string, as used (through `Math.max`) on
record ids.  Ids reaching it are either already-coerced integers or the
empty string, so only integer literals (decimal, optional sign, or unsigned
hexadecimal) and the all-whitespace case are modelled exactly; fractional
and exponent literals, which this program can never feed to `Math.max`,
are mapped to NaN. -/
def jsStrToNumber (s : Str) : JsNum :=
  let t := jsTrim s
  match t with
  | [] => some 0
  | '0' :: c :: rest =>
    if c = 'x' ∨ c = 'X' then
      if !rest.isEmpty && rest.all isHexDigit then some ((natOfDigits 16 hexVal rest : Nat) : Int)
      else none
    else
      if t.all isDecDigit then some ((natOfDigits 10 decVal t : Nat) : Int) else none
  | '-' :: rest =>
    if !rest.isEmpty && rest.all isDecDigit then some (-(natOfDigits 10 decVal rest : Int)) else none
  | '+' :: rest =>
    if !rest.isEmpty && rest.all isDecDigit then some ((natOfDigits 10 decVal rest : Nat) : Int) else none
  | _ =>
    if t.all isDecDigit then some ((natOfDigits 10 decVal t : Nat) : Int) else none

/-- JS ToNumber of a possibly-undefined value (`undefined` → NaN). -/
def jsToNumber : Option Value → JsNum
  | none => none
  | some (.vInt n) => some n
  | some (.vBool b) => some (if b then 1 else 0)
  | some (.vStr s) => jsStrToNumber s

/-- Folding step of `Math.max(...)`: any NaN argument poisons the result. -/
def jsMathMaxAux : JsNum → List (Option Value) → JsNum
  | acc, [] => acc
  | acc, v :: vs =>
    match acc, jsToNumber v with
    | some a, some b => jsMathMaxAux (some (max a b)) vs
    | _, _ => jsMathMaxAux none vs

/-- `Math.max(...values)`.  `Math.max()` of an empty spread is `-Infinity`;
the code guards this call with `todos.length > 0`, so the empty case is
unreachable and is collapsed into `none`. -/
def jsMathMax : List (Option Value) → JsNum
  | [] => none
  | v :: vs => jsMathMaxAux (jsToNumber v) vs

/-- Maximum of a list of integers (`none` on the empty list). -/
def listMaxInt : List Int → Option Int
  | [] => none
  | n :: ns => some (ns.foldl max n)

/-- The id of a record, when it is an integer value. -/
def idOfRecord (r : Record) : Option Int :=
  match getField r idK with
  | some (.vInt n) => some n
  | _ => none

/-- The integer ids occurring in a dataset. -/
def idsOf (ts : List Record) : List Int :=
  ts.filterMap idOfRecord

/-- Whether a record carries an integer id. -/
def idIsInt (r : Record) : Bool :=
  (idOfRecord r).isSome

/-- The identifier the spec assigns to a fresh append: one more than the
maximum id of the dataset, or 1 when the dataset has no records. -/
def nextIdSpec (ids : List Int) : Int :=
  match listMaxInt ids with
  | none => 1
  | some m => m + 1

/-- HTTP method of an incoming request. -/
inductive Method
  | GET
  | POST
  | OPTIONS
  | other (m : Str)
deriving DecidableEq

/-- The JSON body of a POST request.  Fields are optional exactly where the
handler tests them for truthiness; a non-object or absent body is `none`
one level up, in `Request.body`. -/
structure ReqBody where
  task : Option Str
  completed : Option Bool
  created_date : Option Str
deriving DecidableEq

structure Request where
  method : Method
  body : Option ReqBody
deriving DecidableEq

/-- Ambient state the handler reads: the `GOOGLE_API_KEY` environment
variable, the outcome the CSV-export fetch would have, whether the append
endpoint would answer 2xx, and today's calendar date
(`new Date().toISOString().split('T')[0]`). -/
structure Env where
  apiKey : Option Str
  readOutcome : FetchOutcome
  appendOk : Bool
  today : Str
deriving DecidableEq

/-- The `newTodo` object built by the POST branch (todos.js lines 169-173). -/
structure NewTodo where
  task : Str
  completed : Bool
  created_date : Str
deriving DecidableEq

def taskOf (body : Option ReqBody) : Str :=
  match body with
  | none => []
  | some rb => rb.task.getD []

/-- `!req.body || !req.body.task`: body absent, task absent, or task empty. -/
def taskFalsy (body : Option ReqBody) : Bool :=
  match body with
  | none => true
  | some rb =>
    match rb.task with
    | none => true
    | some t => t.isEmpty

def taskLen (body : Option ReqBody) : Nat :=
  (taskOf body).length

/-- `{ task: req.body.task.trim(), completed: req.body.completed || false,
created_date: req.body.created_date || today }`. -/
def mkNewTodo (env : Env) (body : Option ReqBody) : NewTodo :=
  match body with
  | none => ⟨[], false, env.today⟩
  | some rb =>
    ⟨jsTrim (rb.task.getD []),
     rb.completed.getD false,
     match rb.created_date with
     | some d => if d.isEmpty then env.today else d
     | none => env.today⟩

/-- The dataset `addToSheet` and the GET branch both re-derive from a fresh
fetch: `rowsToJSON(await fetchSheetData(SHEET_ID))`. -/
def liveTodos (env : Env) : List Record :=
  rowsToJSON (some (fetchSheetData env.readOutcome))

/-- Result of `addToSheet`: whether it threw, the id of the record it
reports on success, the row submitted to the append endpoint (if the call
was reached), and how many outbound network calls were made. -/
structure AddResult where
  thrown : Bool
  id : Option JsNum
  sent : Option (JsNum × Str × Bool × Str)
  calls : Nat
deriving DecidableEq

/-- `addToSheet` (todos.js lines 66-117).  It throws before any network
call when the API key is unset; otherwise it fetches the sheet (one call),
computes `nextId`, and posts the new row (second call), throwing on a
non-ok append response. -/
def addToSheet (env : Env) (todo : NewTodo) : AddResult :=
  if env.apiKey.isNone then ⟨true, none, none, 0⟩
  else
    let todos := liveTodos env
    let nextId : JsNum :=
      if todos.length > 0 then (jsMathMax (todos.map (fun r => getField r idK))).map (fun m => m + 1)
      else some 1
    let row := (nextId, todo.task, todo.completed, todo.created_date)
    if env.appendOk then ⟨false, some nextId, some row, 2⟩
    else ⟨true, none, some row, 2⟩

/-- The JSON envelope the handler sends, together with the number of
outbound network calls the request caused (0 when a guard fired first). -/
structure ApiResponse where
  status : Nat
  success : Bool
  message : Str
  data : List Record
  count : Nat
  newId : Option JsNum
  networkCalls : Nat
deriving DecidableEq

def keyMsg : Str :=
  "Google API key not configured. Please set GOOGLE_API_KEY environment variable.".toList

def missingTaskMsg : Str := "Missing required field: task".toList

def tooLongMsg : Str := "Task too long. Maximum 100 characters allowed.".toList

def addedMsg : Str := "Todo added successfully".toList

def internalMsg : Str := "Internal server error".toList

def methodMsg (m : Str) : Str :=
  "Method ".toList ++ m ++ " not allowed. Supported methods: GET, POST".toList

/-- The GET branch (todos.js lines 131-143): always HTTP 200 / success,
because `fetchSheetData` cannot throw. -/
def getBranch (env : Env) : ApiResponse :=
  let todos := liveTodos env
  ⟨200, true, [], todos, todos.length, none, 1⟩

/-- The POST branch (todos.js lines 144-181 plus the surrounding catch):
API-key guard, then body/task validation, then `addToSheet`; a throw from
`addToSheet` is caught and surfaced as a generic 500. -/
def postBranch (env : Env) (body : Option ReqBody) : ApiResponse :=
  if env.apiKey.isNone then ⟨500, false, keyMsg, [], 0, none, 0⟩
  else if taskFalsy body then ⟨400, false, missingTaskMsg, [], 0, none, 0⟩
  else if 100 < taskLen body then ⟨400, false, tooLongMsg, [], 0, none, 0⟩
  else
    let r := addToSheet env (mkNewTodo env body)
    if r.thrown then ⟨500, false, internalMsg, [], 0, none, r.calls⟩
    else ⟨201, true, addedMsg, [], 0, r.id, r.calls⟩

/-- The exported request handler (todos.js lines 119-197).  The OPTIONS
branch answers 200 with no JSON body; its `success`/`message` fields are
unused model padding. -/
def handler (env : Env) (req : Request) : ApiResponse :=
  match req.method with
  | .OPTIONS => ⟨200, true, [], [], 0, none, 0⟩
  | .GET => getBranch env
  | .POST => postBranch env req.body
  | .other m => ⟨405, false, methodMsg m, [], 0, none, 0⟩

/-- The record sequence the fallback matrix maps to. -/
def fallbackTodos : List Record :=
  [ [(idK, .vInt 1), (taskK, .vStr "Learn APIs from Google Sheets".toList),
     (completedK, .vBool false), (createdK, .vStr "2024-07-13".toList)],
    [(idK, .vInt 2), (taskK, .vStr "Build real-time integration".toList),
     (completedK, .vBool false), (createdK, .vStr "2024-07-13".toList)],
    [(idK, .vInt 3), (taskK, .vStr "Deploy to production".toList),
     (completedK, .vBool false), (createdK, .vStr "2024-07-13".toList)] ]

/-! Helper lemmas about the record model. -/

theorem getField_setField_self (obj : Record) (k : Str) (v : Value) :
    getField (setField obj k v) k = some v := by
  induction obj with
  | nil => simp [setField, getField]
  | cons kv rest ih =>
    obtain ⟨k1, v1⟩ := kv
    by_cases h : k1 = k
    · simp [setField, getField, h]
    · simp [setField, getField, h, ih]

theorem getField_setField_ne (obj : Record) (k k2 : Str) (v : Value) (h : k2 ≠ k) :
    getField (setField obj k v) k2 = getField obj k2 := by
  induction obj with
  | nil => simp [setField, getField, Ne.symm h]
  | cons kv rest ih =>
    obtain ⟨k1, v1⟩ := kv
    by_cases h1 : k1 = k
    · subst h1
      simp [setField, getField, Ne.symm h]
    · simp [setField, getField, h1, ih]

theorem mem_setField (obj : Record) (k k2 : Str) (v v2 : Value)
    (h : (k2, v2) ∈ setField obj k v) : k2 = k ∨ ∃ v3, (k2, v3) ∈ obj := by
  induction obj with
  | nil =>
    simp [setField] at h
    exact Or.inl h.1
  | cons kv rest ih =>
    obtain ⟨k1, v1⟩ := kv
    by_cases h1 : k1 = k
    · subst h1
      simp [setField] at h
      rcases h with ⟨hk, _⟩ | hmem
      · exact Or.inl hk
      · exact Or.inr ⟨v2, List.mem_cons_of_mem _ hmem⟩
    · simp [setField, h1] at h
      rcases h with ⟨hk, hv⟩ | hmem
      · exact Or.inr ⟨v1, by simp [hk, hv]⟩
      · rcases ih hmem with hl | ⟨v3, hm⟩
        · exact Or.inl hl
        · exact Or.inr ⟨v3, List.mem_cons_of_mem _ hm⟩

theorem getField_coerceId_ne (obj : Record) (index : Nat) (k : Str) (h : k ≠ idK) :
    getField (coerceId obj index) k = getField obj k := by
  unfold coerceId
  cases hg : getField obj idK with
  | none => rfl
  | some v =>
    by_cases ht : truthyV (some v) = true
    · simp [ht, getField_setField_ne _ _ _ _ h]
    · simp [ht]

theorem getField_coerceCompleted_ne (obj : Record) (k : Str) (h : k ≠ completedK) :
    getField (coerceCompleted obj) k = getField obj k := by
  unfold coerceCompleted
  cases hg : getField obj completedK with
  | none => rfl
  | some v =>
    by_cases ht : truthyV (some v) = true
    · simp [ht, getField_setField_ne _ _ _ _ h]
    · simp [ht]

theorem getField_buildAux_notMem (row : List Str) (hs : List Str) (i : Nat)
    (obj : Record) (k : Str) (h : k ∉ hs) :
    getField (buildAux row i hs obj) k = getField obj k := by
  induction hs generalizing i obj with
  | nil => rfl
  | cons h1 rest ih =>
    have hne : k ≠ h1 := fun he => h (he ▸ List.mem_cons_self h1 rest)
    have hrest : k ∉ rest := fun hm => h (List.mem_cons_of_mem _ hm)
    simp only [buildAux]
    rw [ih _ _ hrest, getField_setField_ne _ _ _ _ hne]

theorem getField_buildAux_nodup (row : List Str) (hs : List Str) (i j : Nat)
    (obj : Record) (hnd : hs.Nodup) (hj : j < hs.length) :
    getField (buildAux row i hs obj) (hs.getD j []) =
      some (.vStr (row.getD (i + j) [])) := by
  induction hs generalizing i j obj with
  | nil => simp at hj
  | cons h1 rest ih =>
    rcases List.nodup_cons.mp hnd with ⟨hnotin, hndr⟩
    cases j with
    | zero =>
      simp only [buildAux, List.getD_cons_zero]
      rw [getField_buildAux_notMem _ _ _ _ _ hnotin, getField_setField_self]
      simp
    | succ j1 =>
      have hlen : (h1 :: rest).length = rest.length + 1 := rfl
      have hj1 : j1 < rest.length := by omega
      simp only [buildAux, List.getD_cons_succ]
      rw [ih _ _ _ hndr hj1]
      have harith : i + 1 + j1 = i + (j1 + 1) := by omega
      rw [harith]

theorem mem_buildObj (headers row : List Str) (k : Str) (v : Value)
    (h : (k, v) ∈ buildObj headers row) : k ∈ headers := by
  suffices hgen : ∀ (hs : List Str) (i : Nat) (obj : Record) (v2 : Value),
      (k, v2) ∈ buildAux row i hs obj → k ∈ hs ∨ ∃ v3, (k, v3) ∈ obj by
    rcases hgen headers 0 [] v h with hm | ⟨v3, hm⟩
    · exact hm
    · simp at hm
  intro hs
  induction hs with
  | nil =>
    intro i obj v2 hmem
    exact Or.inr ⟨v2, hmem⟩
  | cons h1 rest ih =>
    intro i obj v2 hmem
    rcases ih (i + 1) _ v2 hmem with hm | ⟨v3, hm⟩
    · exact Or.inl (List.mem_cons_of_mem _ hm)
    · rcases mem_setField _ _ _ _ _ hm with he | ⟨v4, hm4⟩
      · exact Or.inl (he ▸ List.mem_cons_self h1 rest)
      · exact Or.inr ⟨v4, hm4⟩

theorem mapIdx_getD (f : Nat → List Str → Record) (l : List (List Str)) (i j : Nat)
    (hj : j < l.length) :
    (mapIdx f i l).getD j [] = f (i + j) (l.getD j []) := by
  induction l generalizing i j with
  | nil => simp at hj
  | cons r rs ih =>
    cases j with
    | zero => simp [mapIdx]
    | succ j1 =>
      have hj1 : j1 < rs.length := by
        simp only [List.length_cons] at hj
        omega
      simp only [mapIdx, List.getD_cons_succ]
      rw [ih _ _ hj1]
      congr 1
      omega

theorem rowsToJSON_getD (rows : List (List Str)) (i : Nat)
    (h2 : 2 ≤ rows.length) (hi : i < rows.length - 1) :
    (rowsToJSON (some rows)).getD i [] =
      coerceValues (buildObj (headersOf rows) (dataRowAt rows i)) i := by
  have hlt : ¬ rows.length < 2 := by omega
  have hdrop : i < (rows.drop 1).length := by
    simpa [List.length_drop] using hi
  simp only [rowsToJSON, hlt, if_false]
  rw [mapIdx_getD _ _ _ _ hdrop]
  simp [dataRowAt, Nat.zero_add]

/-! Helper lemmas about the tokenizer. -/

theorem splitCh_ne_nil (c : Char) (s : Str) : splitCh c s ≠ [] := by
  cases s with
  | nil => simp [splitCh]
  | cons x xs =>
    simp only [splitCh]
    split
    · simp
    · split <;> simp

theorem joinWith_splitCh (c : Char) (s : Str) : joinWith c (splitCh c s) = s := by
  induction s with
  | nil => rfl
  | cons x xs ih =>
    by_cases hx : x = c
    · subst hx
      cases hsp : splitCh x xs with
      | nil => exact absurd hsp (splitCh_ne_nil x xs)
      | cons y ys =>
        rw [hsp] at ih
        simp [splitCh, joinWith, hsp, ih]
    · cases hsp : splitCh c xs with
      | nil => exact absurd hsp (splitCh_ne_nil c xs)
      | cons y ys =>
        rw [hsp] at ih
        cases ys with
        | nil =>
          simp [joinWith] at ih
          simp [splitCh, hx, hsp, joinWith, ih]
        | cons z zs =>
          simp only [joinWith] at ih
          simp [splitCh, hx, hsp, joinWith, ih]

theorem filter_joinWith (p : Char → Bool) (c : Char) (hc : p c = true) (l : List Str) :
    (joinWith c l).filter p = joinWith c (l.map (fun s => s.filter p)) := by
  induction l with
  | nil => rfl
  | cons s rest ih =>
    cases rest with
    | nil => rfl
    | cons t rs =>
      simp only [joinWith, List.map_cons, List.filter_append, List.filter_cons, hc]
      rw [← List.map_cons, ← ih]
      simp

theorem splitCh_not_mem (c : Char) (s : Str) (h : c ∉ s) : splitCh c s = [s] := by
  induction s with
  | nil => rfl
  | cons x xs ih =>
    have hx : x ≠ c := fun he => h (he ▸ List.mem_cons_self x xs)
    have hxs : c ∉ xs := fun hm => h (List.mem_cons_of_mem _ hm)
    simp [splitCh, hx, ih hxs]

theorem splitCh_append_cons (c : Char) (l rest : Str) (hl : c ∉ l) :
    splitCh c (l ++ c :: rest) = l :: splitCh c rest := by
  induction l with
  | nil => simp [splitCh]
  | cons x xs ih =>
    have hx : x ≠ c := fun he => hl (he ▸ List.mem_cons_self x xs)
    have hxs : c ∉ xs := fun hm => hl (List.mem_cons_of_mem _ hm)
    simp [splitCh, hx, ih hxs]

/-- The last element of a list of cells (`[]` for the empty list). -/
def lastD : List Str → Str
  | [] => []
  | [s] => s
  | _ :: t :: rest => lastD (t :: rest)

/-- The last character of a cell, if any. -/
def lastChar : Str → Option Char
  | [] => none
  | [c] => some c
  | _ :: t :: rest => lastChar (t :: rest)

theorem lastChar_append_single (s : Str) (x : Char) : lastChar (s ++ [x]) = some x := by
  induction s with
  | nil => rfl
  | cons y ys ih =>
    cases ys with
    | nil => rfl
    | cons z zs => simpa [lastChar] using ih

theorem lastD_cons_cons (x y : Str) (rest : List Str) :
    lastD (x :: y :: rest) = lastD (y :: rest) := rfl

theorem lastD_map (f : Str → Str) (l : List Str) (hl : l ≠ []) :
    lastD (l.map f) = f (lastD l) := by
  induction l with
  | nil => exact absurd rfl hl
  | cons x xs ih =>
    cases xs with
    | nil => rfl
    | cons y ys =>
      simp only [List.map_cons]
      rw [lastD_cons_cons, lastD_cons_cons, ← List.map_cons]
      exact ih (by simp)

theorem splitCh_lastD_snoc (c x : Char) (h : x ≠ c) (s : Str) :
    ∃ pre, lastD (splitCh c (s ++ [x])) = pre ++ [x] := by
  induction s with
  | nil =>
    refine ⟨[], ?_⟩
    simp [splitCh, h, lastD]
  | cons y ys ih =>
    obtain ⟨pre, hpre⟩ := ih
    by_cases hy : y = c
    · subst hy
      cases hsp : splitCh y (ys ++ [x]) with
      | nil => exact absurd hsp (splitCh_ne_nil _ _)
      | cons z zs =>
        refine ⟨pre, ?_⟩
        rw [hsp] at hpre
        have hsplit : splitCh y ((y :: ys) ++ [x]) = [] :: z :: zs := by
          simp [splitCh, hsp]
        rw [hsplit, lastD_cons_cons, hpre]
    · cases hsp : splitCh c (ys ++ [x]) with
      | nil => exact absurd hsp (splitCh_ne_nil _ _)
      | cons z zs =>
        rw [hsp] at hpre
        cases zs with
        | nil =>
          refine ⟨y :: pre, ?_⟩
          simp only [lastD] at hpre
          simp [splitCh, hy, hsp, lastD, hpre]
        | cons w ws =>
          refine ⟨pre, ?_⟩
          rw [lastD_cons_cons] at hpre
          simp [splitCh, hy, hsp, lastD_cons_cons, hpre]

/-- CRLF-terminated text: the lines joined by `"\r\n"`. -/
def joinCRLF : List Str → Str
  | [] => []
  | [s] => s
  | s :: t :: rest => s ++ '\r' :: '\n' :: joinCRLF (t :: rest)

/-- The rows the newline-only split produces from CRLF text: every
non-final line keeps its carriage return. -/
def crRows : List Str → List Str
  | [] => []
  | [s] => [s]
  | s :: t :: rest => (s ++ ['\r']) :: crRows (t :: rest)

theorem splitCh_joinCRLF (lines : List Str) (hne : lines ≠ [])
    (hnl : ∀ l ∈ lines, '\n' ∉ l) :
    splitCh '\n' (joinCRLF lines) = crRows lines := by
  induction lines with
  | nil => exact absurd rfl hne
  | cons s rest ih =>
    cases rest with
    | nil =>
      have hs : '\n' ∉ s := hnl s (List.mem_cons_self s [])
      simp [joinCRLF, crRows, splitCh_not_mem _ _ hs]
    | cons t rs =>
      have hs : '\n' ∉ s ++ ['\r'] := by
        have h1 : '\n' ∉ s := hnl s (List.mem_cons_self s (t :: rs))
        simp [List.mem_append, h1]
      have hrest : ∀ l ∈ t :: rs, '\n' ∉ l := fun l hl => hnl l (List.mem_cons_of_mem _ hl)
      have hjoin : joinCRLF (s :: t :: rs) = (s ++ ['\r']) ++ '\n' :: joinCRLF (t :: rs) := by
        simp [joinCRLF]
      rw [hjoin, splitCh_append_cons _ _ _ hs, ih (by simp) hrest]
      rfl

theorem crRows_length (lines : List Str) : (crRows lines).length = lines.length := by
  induction lines with
  | nil => rfl
  | cons s rest ih =>
    cases rest with
    | nil => rfl
    | cons t rs => simpa [crRows] using ih

theorem crRows_getD (lines : List Str) (i : Nat) (hi : i + 1 < lines.length) :
    (crRows lines).getD i [] = lines.getD i [] ++ ['\r'] := by
  induction lines generalizing i with
  | nil => simp at hi
  | cons s rest ih =>
    cases rest with
    | nil => simp at hi
    | cons t rs =>
      cases i with
      | zero => rfl
      | succ i1 =>
        have hlen : (s :: t :: rs).length = (t :: rs).length + 1 := rfl
        have hi1 : i1 + 1 < (t :: rs).length := by omega
        simpa [crRows] using ih i1 hi1

theorem getD_map_lt {α β : Type} (f : α → β) (l : List α) (i : Nat)
    (d : β) (d2 : α) (hi : i < l.length) :
    (l.map f).getD i d = f (l.getD i d2) := by
  induction l generalizing i with
  | nil => simp at hi
  | cons x xs ih =>
    cases i with
    | zero => rfl
    | succ i1 =>
      have hlen : (x :: xs).length = xs.length + 1 := rfl
      have hi1 : i1 < xs.length := by omega
      simpa using ih i1 hi1

/-! Helper lemmas about the next-id computation. -/

theorem foldl_max_spec (ns : List Int) (a : Int) :
    ns.foldl max a ∈ a :: ns ∧ ∀ x ∈ a :: ns, x ≤ ns.foldl max a := by
  induction ns generalizing a with
  | nil => simp
  | cons n rest ih =>
    obtain ⟨hmem, hle⟩ := ih (max a n)
    constructor
    · simp only [List.foldl_cons]
      rcases List.mem_cons.mp hmem with he | hm
      · rw [he]
        rcases max_choice a n with hc | hc
        · rw [hc]
          exact List.mem_cons_self _ _
        · rw [hc]
          exact List.mem_cons_of_mem _ (List.mem_cons_self _ _)
      · exact List.mem_cons_of_mem _ (List.mem_cons_of_mem _ hm)
    · intro x hx
      simp only [List.foldl_cons]
      have hmax : max a n ≤ rest.foldl max (max a n) := hle _ (List.mem_cons_self _ _)
      rcases List.mem_cons.mp hx with he | hx1
      · rw [he]
        exact le_trans (le_max_left a n) hmax
      · rcases List.mem_cons.mp hx1 with he | hm
        · rw [he]
          exact le_trans (le_max_right a n) hmax
        · exact hle _ (List.mem_cons_of_mem _ hm)

theorem listMaxInt_spec (ns : List Int) (m : Int) (h : listMaxInt ns = some m) :
    m ∈ ns ∧ ∀ x ∈ ns, x ≤ m := by
  cases ns with
  | nil => simp [listMaxInt] at h
  | cons n rest =>
    simp only [listMaxInt, Option.some.injEq] at h
    subst h
    exact foldl_max_spec rest n

theorem jsMathMaxAux_map_vInt (ns : List Int) (a : Int) :
    jsMathMaxAux (some a) (ns.map (fun n => some (Value.vInt n))) = some (ns.foldl max a) := by
  induction ns generalizing a with
  | nil => rfl
  | cons n rest ih => simpa [jsMathMaxAux, jsToNumber] using ih (max a n)

theorem jsMathMax_map_vInt (ns : List Int) :
    jsMathMax (ns.map (fun n => some (Value.vInt n))) = listMaxInt ns := by
  cases ns with
  | nil => rfl
  | cons n rest =>
    simp only [List.map_cons, jsMathMax, jsToNumber, listMaxInt]
    exact jsMathMaxAux_map_vInt rest n

theorem map_getField_of_allInt (ts : List Record) (h : ts.all idIsInt = true) :
    ts.map (fun r => getField r idK) = (idsOf ts).map (fun n => some (Value.vInt n)) := by
  induction ts with
  | nil => rfl
  | cons r rest ih =>
    rw [List.all_cons, Bool.and_eq_true] at h
    obtain ⟨hr, hrest⟩ := h
    have hsome : ∃ n, getField r idK = some (.vInt n) := by
      unfold idIsInt idOfRecord at hr
      cases hg : getField r idK with
      | none => rw [hg] at hr; simp at hr
      | some v =>
        cases v with
        | vStr s => rw [hg] at hr; simp at hr
        | vInt n => exact ⟨n, rfl⟩
        | vBool b => rw [hg] at hr; simp at hr
    obtain ⟨n, hn⟩ := hsome
    have hid : idOfRecord r = some n := by simp [idOfRecord, hn]
    simp only [List.map_cons, idsOf, List.filterMap_cons, hid, hn]
    rw [← idsOf]
    simp [ih hrest]

theorem idsOf_length_of_allInt (ts : List Record) (h : ts.all idIsInt = true) :
    (idsOf ts).length = ts.length := by
  have hmap := map_getField_of_allInt ts h
  have h1 : (ts.map (fun r => getField r idK)).length = ts.length := List.length_map _ _
  have h2 : ((idsOf ts).map (fun n => some (Value.vInt n))).length = (idsOf ts).length :=
    List.length_map _ _
  rw [hmap, h2] at h1
  exact h1

/-! Claim theorems. -/

/-- C2, counterexample.  The claim says a not-a-number id cell (including
the empty cell) always becomes the row's 1-based position, and a
successfully parsed cell always becomes the parsed integer.  The code
contradicts both: the truthiness guard `if (obj.id)` skips the empty
string, which therefore stays the string `""` (first input, where the
claim predicts the integer 1), and `parseInt("0") || index + 1` is the
fallback because `0` is falsy, so a `"0"` cell becomes 1, not the parsed
integer 0 (second input). -/
theorem id_coercion_claim_cex :
    (getField ((rowsToJSON (some [[idK], [[]]])).getD 0 []) idK = some (.vStr []) ∧
      getField ((rowsToJSON (some [[idK], [[]]])).getD 0 []) idK ≠ some (.vInt 1)) ∧
    (getField ((rowsToJSON (some [[idK], [['0']]])).getD 0 []) idK = some (.vInt 1) ∧
      getField ((rowsToJSON (some [[idK], [['0']]])).getD 0 []) idK ≠ some (.vInt 0)) := by
  decide

/-- C2 (amended): in every matrix whose record gained an `id` field from
the header zip, a non-empty id cell is coerced to `parseInt(cell)`, with
the row's 1-based position among the data rows substituted when the parse
yields NaN or 0; an empty id cell is left as the empty string. -/
theorem rowsToJSON_id_coercion (rows : List (List Str)) (i : Nat) (s : Str)
    (h2 : 2 ≤ rows.length) (hi : i < rows.length - 1)
    (hs : getField (buildObj (headersOf rows) (dataRowAt rows i)) idK = some (.vStr s)) :
    getField ((rowsToJSON (some rows)).getD i []) idK =
      if s.isEmpty then some (.vStr s)
      else some (.vInt (jsParseIntOr s ((i : Int) + 1))) := by
  rw [rowsToJSON_getD rows i h2 hi]
  unfold coerceValues
  rw [getField_coerceCompleted_ne _ _ (by decide)]
  unfold coerceId
  rw [hs]
  by_cases he : s.isEmpty = true
  · simp [truthyV, he, hs]
  · simp [truthyV, he, getField_setField_self, valueToString]

theorem rowsToJSON_id_coercion_witness :
    getField ((rowsToJSON (some [[idK], [['7']]])).getD 0 []) idK = some (.vInt 7) := by
  have h := rowsToJSON_id_coercion [[idK], [['7']]] 0 ['7'] (by decide) (by decide) (by decide)
  rw [h]
  decide

/-- C3, counterexample.  The claim says the `completed` field always
becomes a boolean, false for every non-"true" value including the empty
string.  The truthiness guard `if (obj.completed)` skips the empty string,
which therefore stays the string `""` instead of becoming boolean false. -/
theorem completed_coercion_claim_cex :
    getField ((rowsToJSON (some [[completedK], [[]]])).getD 0 []) completedK = some (.vStr []) ∧
    getField ((rowsToJSON (some [[completedK], [[]]])).getD 0 []) completedK ≠
      some (.vBool false) := by
  decide

/-- C3 (amended): in every matrix whose record gained a `completed` field
from the header zip, a non-empty cell becomes the boolean result of the
case-insensitive comparison with "true"; an empty cell is left as the
empty string. -/
theorem rowsToJSON_completed_coercion (rows : List (List Str)) (i : Nat) (s : Str)
    (h2 : 2 ≤ rows.length) (hi : i < rows.length - 1)
    (hs : getField (buildObj (headersOf rows) (dataRowAt rows i)) completedK = some (.vStr s)) :
    getField ((rowsToJSON (some rows)).getD i []) completedK =
      if s.isEmpty then some (.vStr s)
      else some (.vBool (jsToLower s == trueL)) := by
  rw [rowsToJSON_getD rows i h2 hi]
  unfold coerceValues
  have hid : getField (coerceId (buildObj (headersOf rows) (dataRowAt rows i)) i) completedK
      = some (.vStr s) := by
    rw [getField_coerceId_ne _ _ _ (by decide), hs]
  unfold coerceCompleted
  rw [hid]
  by_cases he : s.isEmpty = true
  · simp [truthyV, he, hid]
  · simp [truthyV, he, getField_setField_self, valueToString]

theorem rowsToJSON_completed_coercion_witness :
    getField ((rowsToJSON (some [[completedK], [['T', 'R', 'U', 'E']]])).getD 0 []) completedK
      = some (.vBool true) := by
  have h := rowsToJSON_completed_coercion [[completedK], [['T', 'R', 'U', 'E']]] 0
    ['T', 'R', 'U', 'E'] (by decide) (by decide) (by decide)
  rw [h]
  decide

/-- C4: a null matrix, an empty matrix, or a matrix with only a header row
maps to the empty record sequence; `rowsToJSON` is total, so this is a
valid result, not an error. -/
theorem rowsToJSON_small_matrix (m : Option (List (List Str)))
    (h : (m.getD []).length < 2) : rowsToJSON m = [] := by
  cases m with
  | none => rfl
  | some rows =>
    simp only [Option.getD_some] at h
    simp [rowsToJSON, h]

theorem rowsToJSON_small_matrix_witness : rowsToJSON (some [[idK]]) = [] :=
  rowsToJSON_small_matrix (some [[idK]]) (by decide)

/-- C5: each record zips header names to the data row's cells positionally:
position `i` of the header receives cell `i` of the row, which is the
empty string whenever the row is too short (`row.getD i []`), and every
field of the record comes from the header, so trailing cells beyond the
header are dropped.  Stated for duplicate-free headers (with duplicates
the code lets the last occurrence win, which the claim does not discuss). -/
theorem buildObj_zip_positional (headers row : List Str) (hnd : headers.Nodup) :
    (∀ i, i < headers.length →
        getField (buildObj headers row) (headers.getD i []) = some (.vStr (row.getD i []))) ∧
    (∀ k v, (k, v) ∈ buildObj headers row → k ∈ headers) := by
  constructor
  · intro i hi
    have h := getField_buildAux_nodup row headers 0 i [] hnd hi
    simpa using h
  · intro k v hm
    exact mem_buildObj headers row k v hm

theorem buildObj_zip_positional_witness :
    getField (buildObj [['a'], ['b']] [['x']]) ['b'] = some (.vStr []) := by
  have h := (buildObj_zip_positional [['a'], ['b']] [['x']] (by decide)).1 1 (by decide)
  simpa using h

/-- C1: whenever the CSV fetch fails (network rejection or non-2xx
status), `fetchSheetData` returns the fixed fallback matrix instead of
propagating the error (it is a total function of the outcome), the mapped
dataset is exactly the three fallback records with ids 1, 2, 3 and
`completed` false, and the GET endpoint still answers HTTP 200 with
`success: true` and that dataset. -/
theorem fetch_failure_fallback_read (env : Env) (req : Request)
    (hm : req.method = Method.GET) (h : fetchFails env.readOutcome = true) :
    fetchSheetData env.readOutcome = fallbackMatrix ∧
    rowsToJSON (some (fetchSheetData env.readOutcome)) = fallbackTodos ∧
    (handler env req).status = 200 ∧ (handler env req).success = true ∧
    (handler env req).data = fallbackTodos ∧ (handler env req).count = 3 := by
  have hfb : fetchSheetData env.readOutcome = fallbackMatrix := by
    cases ho : env.readOutcome with
    | netError => rfl
    | response status body =>
      rw [ho] at h
      have hok : responseOk status = false := by
        simpa [fetchFails] using h
      simp [fetchSheetData, hok]
  have hjson : rowsToJSON (some fallbackMatrix) = fallbackTodos := by decide
  obtain ⟨m, b⟩ := req
  have hm2 : m = Method.GET := hm
  subst hm2
  refine ⟨hfb, by rw [hfb]; exact hjson, ?_, ?_, ?_, ?_⟩
  · rfl
  · rfl
  · simp [handler, getBranch, liveTodos, hfb, hjson]
  · simp [handler, getBranch, liveTodos, hfb, hjson]
    decide

theorem fetch_failure_fallback_read_witness :
    (handler ⟨none, FetchOutcome.netError, true, []⟩ ⟨Method.GET, none⟩).data = fallbackTodos :=
  (fetch_failure_fallback_read ⟨none, .netError, true, []⟩ ⟨.GET, none⟩ rfl rfl).2.2.2.2.1

/-- C7: a POST while the API key is unset fails immediately with the
configuration response (HTTP 500, `success: false`, the key message) and
zero network calls; the message differs from the one the handler uses for
network/internal errors, so the failure is distinct from a network error. -/
theorem post_missing_key (env : Env) (req : Request)
    (hk : env.apiKey = none) (hm : req.method = Method.POST) :
    handler env req = ⟨500, false, keyMsg, [], 0, none, 0⟩ ∧ keyMsg ≠ internalMsg := by
  constructor
  · obtain ⟨m, b⟩ := req
    have hm2 : m = Method.POST := hm
    subst hm2
    simp [handler, postBranch, hk]
  · decide

theorem post_missing_key_witness :
    handler ⟨none, FetchOutcome.netError, true, []⟩ ⟨Method.POST, none⟩ =
      ⟨500, false, keyMsg, [], 0, none, 0⟩ :=
  (post_missing_key ⟨none, .netError, true, []⟩ ⟨.POST, none⟩ rfl rfl).1

/-- C6, counterexample.  The claim demands a Validation error (HTTP 400)
for every POST whose task is absent, empty, or over-long; but the API-key
guard runs first, so the same request without a configured key fails with
the Configuration error (HTTP 500) instead of 400. -/
theorem post_validation_claim_cex :
    (handler ⟨none, FetchOutcome.netError, true, []⟩ ⟨Method.POST, none⟩).status = 500 ∧
    (handler ⟨none, FetchOutcome.netError, true, []⟩ ⟨Method.POST, none⟩).status ≠ 400 := by
  decide

/-- The append helper always makes exactly two network calls (read fetch
plus append POST) once the API key is present. -/
theorem addToSheet_calls_of_key (env : Env) (todo : NewTodo)
    (hk : env.apiKey.isNone = false) : (addToSheet env todo).calls = 2 := by
  simp only [addToSheet, hk, Bool.false_eq_true, if_false]
  cases ha : env.appendOk <;> simp [ha]

/-- C6 (amended): for every POST request made while the write credential
is configured, a task that is absent/empty or longer than 100 characters
fails with HTTP 400, `success: false`, and zero network calls; a task of
exactly 100 characters passes validation and reaches the network (two
outbound calls, so the response is never 400). -/
theorem post_validation_with_key (env : Env) (req : Request)
    (hk : env.apiKey.isNone = false) (hm : req.method = Method.POST) :
    ((taskFalsy req.body = true ∨ 100 < taskLen req.body) →
      (handler env req).status = 400 ∧ (handler env req).success = false ∧
        (handler env req).networkCalls = 0) ∧
    (taskFalsy req.body = false → taskLen req.body = 100 →
      (handler env req).status ≠ 400 ∧ (handler env req).networkCalls = 2) := by
  obtain ⟨m, b⟩ := req
  have hm2 : m = Method.POST := hm
  subst hm2
  constructor
  · intro hbad
    by_cases hfal : taskFalsy b = true
    · simp [handler, postBranch, hk, hfal]
    · have hlong : 100 < taskLen b := by
        rcases hbad with hb | hb
        · exact absurd hb hfal
        · exact hb
      simp [handler, postBranch, hk, hfal, hlong]
  · intro hfal hlen100
    have hlen100b : taskLen b = 100 := hlen100
    have hnot : ¬ 100 < taskLen b := by omega
    have hcalls := addToSheet_calls_of_key env (mkNewTodo env b) hk
    constructor
    · simp only [handler, postBranch, hk, Bool.false_eq_true, if_false, hfal, hnot]
      cases ht : (addToSheet env (mkNewTodo env b)).thrown <;> simp [ht]
    · simp only [handler, postBranch, hk, Bool.false_eq_true, if_false, hfal, hnot]
      cases ht : (addToSheet env (mkNewTodo env b)).thrown <;> simp [ht, hcalls]

theorem post_validation_with_key_witness :
    (handler ⟨some ['k'], FetchOutcome.netError, true, []⟩ ⟨Method.POST, none⟩).status = 400 ∧
    (handler ⟨some ['k'], FetchOutcome.netError, true, []⟩ ⟨Method.POST, none⟩).success = false ∧
    (handler ⟨some ['k'], FetchOutcome.netError, true, []⟩
        ⟨Method.POST, none⟩).networkCalls = 0 :=
  (post_validation_with_key ⟨some ['k'], .netError, true, []⟩ ⟨.POST, none⟩ rfl rfl).1
    (Or.inl rfl)

/-- The `nextId` expression of `addToSheet` agrees with the spec-level
next identifier whenever every fetched record carries an integer id. -/
theorem nextId_of_allInt (ts : List Record) (h : ts.all idIsInt = true) :
    (if ts.length > 0 then (jsMathMax (ts.map (fun r => getField r idK))).map (fun m => m + 1)
      else some 1) = some (nextIdSpec (idsOf ts)) := by
  have hmap := map_getField_of_allInt ts h
  have hlen : (idsOf ts).length = ts.length := idsOf_length_of_allInt ts h
  rw [hmap, jsMathMax_map_vInt]
  cases hids : idsOf ts with
  | nil =>
    have : ts.length = 0 := by rw [← hlen, hids]; rfl
    simp [this, nextIdSpec, hids, listMaxInt]
  | cons n ns =>
    have hpos : ts.length > 0 := by
      rw [← hlen, hids]
      simp
    simp [hpos, nextIdSpec, listMaxInt]

/-- C8: a successful append reports a record whose identifier is one more
than the maximum id of the freshly fetched dataset, or 1 when that dataset
has no records (`nextIdSpec`, backed by `listMaxInt_spec` showing it is
the maximum).  Stated for datasets whose records all carry integer ids,
which is what "the maximum id among the records" presupposes. -/
theorem addToSheet_next_identifier (env : Env) (req : Request)
    (hm : req.method = Method.POST) (hk : env.apiKey.isNone = false)
    (hfal : taskFalsy req.body = false) (hlen : ¬ 100 < taskLen req.body)
    (ha : env.appendOk = true) (hids : (liveTodos env).all idIsInt = true) :
    (handler env req).status = 201 ∧ (handler env req).success = true ∧
    (handler env req).newId = some (some (nextIdSpec (idsOf (liveTodos env)))) := by
  obtain ⟨m, b⟩ := req
  have hm2 : m = Method.POST := hm
  subst hm2
  have hadd : addToSheet env (mkNewTodo env b) =
      ⟨false, some (some (nextIdSpec (idsOf (liveTodos env)))),
        some (some (nextIdSpec (idsOf (liveTodos env))), (mkNewTodo env b).task,
          (mkNewTodo env b).completed, (mkNewTodo env b).created_date), 2⟩ := by
    simp only [addToSheet, hk, Bool.false_eq_true, if_false, ha, if_true]
    rw [nextId_of_allInt _ hids]
  simp [handler, postBranch, hk, hfal, hlen, hadd]

theorem addToSheet_next_identifier_witness :
    (handler ⟨some ['k'], FetchOutcome.netError, true, []⟩
        ⟨Method.POST, some ⟨some ['x'], none, none⟩⟩).newId = some (some 4) := by
  have h := addToSheet_next_identifier ⟨some ['k'], .netError, true, []⟩
    ⟨.POST, some ⟨some ['x'], none, none⟩⟩ rfl rfl rfl (by decide) rfl (by decide)
  rw [h.2.2]
  decide

/-- C9: for text whose tokenization has no fully-blank row, re-joining the
fetched Row Matrix with comma and newline separators reproduces the
original text with every double-quote character removed.  The claim's
other cleanliness condition (no commas or newlines inside quoted fields)
is not needed: the naive splitter makes the round trip hold regardless. -/
theorem tokenize_join_roundtrip (text : Str)
    (hclean : ∀ row ∈ tokenize text, rowNonBlank row = true) :
    joinWith '\n' ((fetchRows text).map (joinWith ',')) = stripQuotes text := by
  have hsan : fetchRows text = tokenize text := by
    unfold fetchRows sanitize
    exact List.filter_eq_self.mpr hclean
  rw [hsan]
  unfold tokenize
  rw [List.map_map]
  have hrow : ∀ row ∈ splitCh '\n' text,
      (joinWith ',' ∘ fun r => (splitCh ',' r).map stripQuotes) row = stripQuotes row := by
    intro row _
    show joinWith ',' ((splitCh ',' row).map stripQuotes) = stripQuotes row
    unfold stripQuotes
    rw [← filter_joinWith (fun c => c != '"') ',' (by decide) (splitCh ',' row),
      joinWith_splitCh]
  rw [List.map_congr_left hrow]
  unfold stripQuotes
  rw [← filter_joinWith (fun c => c != '"') '\n' (by decide) (splitCh '\n' text),
    joinWith_splitCh]

theorem tokenize_join_roundtrip_witness :
    joinWith '\n' ((fetchRows "id,task\n1,\"write spec\"".toList).map (joinWith ',')) =
      stripQuotes "id,task\n1,\"write spec\"".toList :=
  tokenize_join_roundtrip _ (by decide)

/-- C10: the tokenizer splits rows only on line-feed and strips only
double quotes, so in CRLF text (lines containing no line-feed, joined by
`"\r\n"`) every non-final row of the Row Matrix keeps a trailing carriage
return as the last character of its last cell, and the row count equals
the line count. -/
theorem tokenize_crlf_keeps_cr (lines : List Str) (i : Nat)
    (hnl : ∀ l ∈ lines, '\n' ∉ l) (hi : i + 1 < lines.length) :
    (tokenize (joinCRLF lines)).length = lines.length ∧
    lastChar (lastD ((tokenize (joinCRLF lines)).getD i [])) = some '\r' := by
  have hne : lines ≠ [] := by
    intro he
    rw [he] at hi
    simp at hi
  have hsp := splitCh_joinCRLF lines hne hnl
  unfold tokenize
  rw [hsp]
  constructor
  · rw [List.length_map]
    exact crRows_length lines
  · have hlt : i < (crRows lines).length := by
      rw [crRows_length]
      omega
    rw [getD_map_lt (fun row => (splitCh ',' row).map stripQuotes) (crRows lines) i [] [] hlt,
      crRows_getD lines i hi]
    obtain ⟨pre, hpre⟩ := splitCh_lastD_snoc ',' '\r' (by decide) (lines.getD i [])
    rw [lastD_map _ _ (splitCh_ne_nil _ _), hpre]
    have hstrip : stripQuotes (pre ++ ['\r']) = stripQuotes pre ++ ['\r'] := by
      have hr : ('\r' != '"') = true := by decide
      simp [stripQuotes, List.filter_append, hr]
    rw [hstrip, lastChar_append_single]

theorem tokenize_crlf_keeps_cr_witness :
    (tokenize (joinCRLF [['a', 'b'], ['c', 'd']])).length = 2 ∧
    lastChar (lastD ((tokenize (joinCRLF [['a', 'b'], ['c', 'd']])).getD 0 [])) = some '\r' :=
  tokenize_crlf_keeps_cr [['a', 'b'], ['c', 'd']] 0 (by decide) (by decide)

end GSheet
